import Mathlib

/-!
Verification development for the `merkle` package of the mini-cursor-cli
repository (`src/merkle/node.py`, `src/merkle/tree.py`,
`src/merkle/exceptions.py`).

The Python code is shallowly embedded:

* `MerkleNode` becomes the inductive type `MNode`; the `children` dict of a
  directory node becomes an association list `List (String × MNode)` kept in
  insertion order (Python dicts preserve insertion order and have unique
  keys); the Python value `None` used for the `children` of a file node is
  represented by the empty list, which is equivalent because every use of
  `children` in the source guards it with Python truthiness, under which
  `None` and `{}` behave identically.
* SHA-256 is an explicit parameter `sha : List Nat → String` (bytes to hex
  digest); `hashlib.sha256(b).hexdigest()` always yields 64 lowercase hex
  characters, which theorems assume through the predicate `shaOk`.
* The filesystem walked by `MerkleTree._build_recursive` is the inductive
  `FSEntry` (a file with byte contents, or a directory with named entries
  whose names are unique and contain no path separator, as on a real
  filesystem); `os.path.exists(root_path)` is modelled by passing
  `Option FSEntry` for the root, and `os.path.abspath` is modelled as the
  identity (paths are taken to be absolute already).
* Exceptions become `Except MerkleError`; exception messages are elided.
* Python set iteration order (used by `_compare_nodes` over key sets) is
  unspecified; the embedding iterates in the first dict's insertion order.
  Every claim settled below is insensitive to that order.
-/

/-! ## String utilities

Python compares strings lexicographically by code point, `str.lower` maps
A-Z to a-z on the ASCII range (hash strings are ASCII), and `str.encode()`
is UTF-8. These are modelled by kernel-computable functions.
-/

/-- ASCII lowercasing of a string, mirroring `str.lower` on the ASCII
inputs that hash strings consist of. -/
def asciiLower (s : String) : String :=
  ⟨s.data.map Char.toLower⟩

/-- Code-point lexicographic comparison of char lists, as Python compares
strings. -/
def charsLe : List Char → List Char → Bool
  | [], _ => true
  | _ :: _, [] => false
  | c :: cs, d :: ds =>
    if c.toNat < d.toNat then true
    else if d.toNat < c.toNat then false
    else charsLe cs ds

/-- Python's string comparison: code-point lexicographic order. -/
def strLeB (a b : String) : Bool :=
  charsLe a.data b.data

/-- Insert an element into a list ordered by `le` (the inner step of a
stable insertion sort). -/
def insSorted {α : Type} (le : α → α → Bool) (x : α) : List α → List α
  | [] => [x]
  | y :: ys => if le x y then x :: y :: ys else y :: insSorted le x ys

/-- Insertion sort; models Python's `sorted` and `list.sort`, which
produce the unique `le`-ordered permutation of their input. -/
def insSort {α : Type} (le : α → α → Bool) : List α → List α
  | [] => []
  | x :: xs => insSorted le x (insSort le xs)

/-- Python `sorted` for lists of strings. -/
def pySortStrings : List String → List String :=
  insSort strLeB

/-- UTF-8 encoding of a single code point. -/
def charUtf8 (c : Char) : List Nat :=
  let n := c.toNat
  if n < 0x80 then [n]
  else if n < 0x800 then [0xC0 + n / 64, 0x80 + n % 64]
  else if n < 0x10000 then [0xE0 + n / 4096, 0x80 + (n / 64) % 64, 0x80 + n % 64]
  else [0xF0 + n / 262144, 0x80 + (n / 4096) % 64, 0x80 + (n / 64) % 64, 0x80 + n % 64]

/-- UTF-8 encoding of a string, mirroring Python's `str.encode()`. -/
def utf8Encode (s : String) : List Nat :=
  s.data.flatMap charUtf8

theorem insSorted_perm {α : Type} (le : α → α → Bool) (x : α) (l : List α) :
    (insSorted le x l).Perm (x :: l) := by
  induction l with
  | nil => simp [insSorted]
  | cons y ys ih =>
    simp only [insSorted]
    by_cases h : le x y = true
    · simp [h]
    · simp only [h, if_false]
      exact (ih.cons y).trans (List.Perm.swap x y ys)

theorem insSort_perm {α : Type} (le : α → α → Bool) (l : List α) :
    (insSort le l).Perm l := by
  induction l with
  | nil => simp [insSort]
  | cons x xs ih =>
    simp only [insSort]
    exact (insSorted_perm le x (insSort le xs)).trans (ih.cons x)

theorem charsLe_total (a b : List Char) : charsLe a b = true ∨ charsLe b a = true := by
  induction a generalizing b with
  | nil => left; simp [charsLe]
  | cons c cs ih =>
    cases b with
    | nil => right; simp [charsLe]
    | cons d ds =>
      simp only [charsLe]
      rcases Nat.lt_trichotomy c.toNat d.toNat with h | h | h
      · left; simp [h]
      · have h1 : ¬ c.toNat < d.toNat := by omega
        have h2 : ¬ d.toNat < c.toNat := by omega
        simpa [h1, h2] using ih ds
      · right; simp [h]

theorem charsLe_antisymm {a b : List Char} (h1 : charsLe a b = true)
    (h2 : charsLe b a = true) : a = b := by
  induction a generalizing b with
  | nil =>
    cases b with
    | nil => rfl
    | cons d ds => simp [charsLe] at h2
  | cons c cs ih =>
    cases b with
    | nil => simp [charsLe] at h1
    | cons d ds =>
      simp only [charsLe] at h1 h2
      rcases Nat.lt_trichotomy c.toNat d.toNat with h | h | h
      · have hh : ¬ d.toNat < c.toNat := by omega
        simp [h, hh] at h2
      · have hc : c = d := by
          apply Char.eq_of_val_eq
          have hv : c.val.toNat = d.val.toNat := h
          exact UInt32.ext hv
        have h3 : ¬ c.toNat < d.toNat := by omega
        have h4 : ¬ d.toNat < c.toNat := by omega
        simp only [h3, h4, if_false, if_neg] at h1 h2
        rw [hc, ih h1 h2]
      · have hh : ¬ c.toNat < d.toNat := by omega
        simp [h, hh] at h1

theorem charsLe_trans {a b c : List Char} (h1 : charsLe a b = true)
    (h2 : charsLe b c = true) : charsLe a c = true := by
  induction a generalizing b c with
  | nil => simp [charsLe]
  | cons x xs ih =>
    cases b with
    | nil => simp [charsLe] at h1
    | cons y ys =>
      cases c with
      | nil => simp [charsLe] at h2
      | cons z zs =>
        simp only [charsLe] at h1 h2 ⊢
        rcases Nat.lt_trichotomy x.toNat y.toNat with hxy | hxy | hxy <;>
          rcases Nat.lt_trichotomy y.toNat z.toNat with hyz | hyz | hyz
        · have hg : x.toNat < z.toNat := by omega
          simp [hg]
        · have hg : x.toNat < z.toNat := by omega
          simp [hg]
        · have g1 : ¬ y.toNat < z.toNat := by omega
          simp [g1, hyz] at h2
        · have hg : x.toNat < z.toNat := by omega
          simp [hg]
        · have g1 : ¬ x.toNat < y.toNat := by omega
          have g2 : ¬ y.toNat < x.toNat := by omega
          have g3 : ¬ y.toNat < z.toNat := by omega
          have g4 : ¬ z.toNat < y.toNat := by omega
          have g5 : ¬ x.toNat < z.toNat := by omega
          have g6 : ¬ z.toNat < x.toNat := by omega
          simp only [g1, g2, if_false] at h1
          simp only [g3, g4, if_false] at h2
          simp only [g5, g6, if_false]
          exact ih h1 h2
        · have g1 : ¬ y.toNat < z.toNat := by omega
          simp [g1, hyz] at h2
        · have g1 : ¬ x.toNat < y.toNat := by omega
          simp [g1, hxy] at h1
        · have g1 : ¬ x.toNat < y.toNat := by omega
          simp [g1, hxy] at h1
        · have g1 : ¬ x.toNat < y.toNat := by omega
          simp [g1, hxy] at h1

theorem strLeB_total (a b : String) : strLeB a b = true ∨ strLeB b a = true :=
  charsLe_total a.data b.data

theorem strLeB_antisymm {a b : String} (h1 : strLeB a b = true)
    (h2 : strLeB b a = true) : a = b := by
  cases a; cases b
  exact congrArg String.mk (charsLe_antisymm h1 h2)

theorem strLeB_trans {a b c : String} (h1 : strLeB a b = true)
    (h2 : strLeB b c = true) : strLeB a c = true :=
  charsLe_trans h1 h2

theorem strLeB_total_of_not {a b : String} (h : ¬ strLeB a b = true) :
    strLeB b a = true :=
  (strLeB_total a b).resolve_left h

theorem insSorted_comm_strings (x y : String) (l : List String) :
    insSorted strLeB x (insSorted strLeB y l)
      = insSorted strLeB y (insSorted strLeB x l) := by
  induction l with
  | nil =>
    simp only [insSorted]
    by_cases hxy : strLeB x y = true
    · by_cases hyx : strLeB y x = true
      · rw [strLeB_antisymm hxy hyx]
      · simp [insSorted, hxy, hyx]
    · have hyx := strLeB_total_of_not hxy
      simp [insSorted, hxy, hyx]
  | cons z zs ih =>
    simp only [insSorted]
    by_cases hyz : strLeB y z = true <;> by_cases hxz : strLeB x z = true
    · simp only [hyz, if_true, hxz, insSorted]
      by_cases hxy : strLeB x y = true
      · by_cases hyx : strLeB y x = true
        · rw [strLeB_antisymm hxy hyx]
        · simp [insSorted, hxy, hyx, hxz, hyz]
      · have hyx := strLeB_total_of_not hxy
        simp [insSorted, hxy, hyx, hxz, hyz]
    · have hxy : ¬ strLeB x y = true := fun hxy => hxz (strLeB_trans hxy hyz)
      simp [insSorted, hyz, hxz, hxy]
    · have hyx : ¬ strLeB y x = true := fun hyx => hyz (strLeB_trans hyx hxz)
      simp [insSorted, hyz, hxz, hyx]
    · simp [insSorted, hyz, hxz, ih]

theorem insSort_perm_eq_strings {l1 l2 : List String} (h : l1.Perm l2) :
    insSort strLeB l1 = insSort strLeB l2 := by
  induction h with
  | nil => rfl
  | cons x _ ih => simp [insSort, ih]
  | swap x y l => simp [insSort, insSorted_comm_strings]
  | trans _ _ ih1 ih2 => rw [ih1, ih2]

theorem pySortStrings_perm_eq {l1 l2 : List String} (h : l1.Perm l2) :
    pySortStrings l1 = pySortStrings l2 :=
  insSort_perm_eq_strings h

/-! ## Exceptions (src/merkle/exceptions.py)

`FileNotFoundError` is the Python builtin raised by
`MerkleTree.build_from_directory`; the others are the custom exception
types. `InvalidIndexError` belongs to an unused legacy design and never
occurs in the embedded code. `valueError` models the builtin `ValueError`
raised by `MerkleNode.add_child`, and `keyError` / `typeError` model the
builtin errors that dictionary indexing in `MerkleTree.from_dict` can
raise on malformed records. -/
inductive MerkleError where
  | invalidHash
  | emptyTree
  | fileNotFound
  | valueError
  | keyError
  | typeError
deriving DecidableEq

/-! ## Node model (src/merkle/node.py) -/

/-- `MerkleNode`: `name`, `path`, `hash`, `is_file`, `children`. The
children dict is an association list in insertion order; for file nodes
`__init__` forces `children = None`, represented here as `[]`. -/
inductive MNode where
  | mk (name path hashv : String) (fileFlag : Bool) (children : List (String × MNode))

def MNode.name : MNode → String
  | .mk n _ _ _ _ => n

def MNode.path : MNode → String
  | .mk _ p _ _ _ => p

def MNode.hash : MNode → String
  | .mk _ _ h _ _ => h

/-- The `is_file` flag of a node. -/
def MNode.isFileN : MNode → Bool
  | .mk _ _ _ b _ => b

def MNode.childrenL : MNode → List (String × MNode)
  | .mk _ _ _ _ ch => ch

/-- Structural induction for `MNode` with the hypothesis available for
every child in the association list. -/
theorem mnodeInductionOn {P : MNode → Prop}
    (h : ∀ name path hashv b children,
      (∀ k c, (k, c) ∈ children → P c) → P (.mk name path hashv b children)) :
    ∀ n, P n
  | .mk nm p hs b ch => h nm p hs b ch (fun _ c hmem => mnodeInductionOn h c)
termination_by n => sizeOf n
decreasing_by
  have h1 := List.sizeOf_lt_of_mem hmem
  simp at h1
  simp
  omega

/-- Dictionary lookup `d[k]` on an association list (first match; keys are
unique in every dict the code builds). -/
def alookup {α : Type} : List (String × α) → String → Option α
  | [], _ => none
  | (k, v) :: rest, key => if k = key then some v else alookup rest key

/-- Dictionary assignment `d[k] = v`: overwrite the existing binding or
append a new one. -/
def dictInsert {α : Type} : List (String × α) → String → α → List (String × α)
  | [], key, v => [(key, v)]
  | (k, w) :: rest, key, v =>
    if k = key then (k, v) :: rest else (k, w) :: dictInsert rest key v

theorem alookup_sizeOf {α : Type} [SizeOf α] {l : List (String × α)} {key : String}
    {v : α} (h : alookup l key = some v) : sizeOf v < sizeOf l := by
  induction l with
  | nil => simp [alookup] at h
  | cons kv rest ih =>
    obtain ⟨k, w⟩ := kv
    simp only [alookup] at h
    by_cases hk : k = key
    · simp only [hk, if_true, if_pos] at h
      cases h
      simp
      omega
    · simp only [hk, if_false, if_neg, not_false_iff] at h
      have := ih h
      simp
      omega

/-- Is `c` one of the characters accepted by the validation pattern
`[a-fA-F0-9]` in `MerkleNode._validate_hash`. -/
def isHexChar (c : Char) : Bool :=
  ('a' ≤ c && c ≤ 'f') || ('A' ≤ c && c ≤ 'F') || c.isDigit

/-- `MerkleNode._validate_hash`: reject strings that are not exactly 64
characters or contain a non-hex character, and return the lowercased
string otherwise. (The `isinstance(hash_value, str)` check is enforced by
the type of the argument; the regular expression `[a-fA-F0-9]{64}` with
the length already pinned to 64 is exactly the per-character hex test.) -/
def validate_hash (hash_value : String) : Except MerkleError String :=
  if hash_value.length ≠ 64 then .error .invalidHash
  else if ¬ (hash_value.data.all isHexChar) then .error .invalidHash
  else .ok (asciiLower hash_value)

/-- `MerkleNode.__init__`: validate the hash, store its lowercase form,
and force `children` to `None` (here `[]`) for file nodes. -/
def nodeInit (name path hash_value : String) (fileFlag : Bool)
    (children : List (String × MNode)) : Except MerkleError MNode :=
  (validate_hash hash_value).map
    (fun h => .mk name path h fileFlag (if fileFlag then [] else children))

/-- `MerkleNode.create_file_node`. -/
def create_file_node (name path content_hash : String) : Except MerkleError MNode :=
  nodeInit name path content_hash true []

/-- `MerkleNode.create_directory_node`. -/
def create_directory_node (name path combined_hash : String)
    (children : List (String × MNode)) : Except MerkleError MNode :=
  nodeInit name path combined_hash false children

/-- `MerkleNode.add_child`: raises `ValueError` on a file node, otherwise
mutates the children dict in place (state passing: the updated node is
returned). -/
def add_child (self child : MNode) : Except MerkleError MNode :=
  if self.isFileN then .error .valueError
  else .ok (.mk self.name self.path self.hash false
    (dictInsert self.childrenL child.name child))

/-! ## Tree type (src/merkle/tree.py) -/

/-- `MerkleTree`: an optional root node plus the `root_path` string (the
`ignored_patterns` attribute is the same constant set on every instance
and is modelled by the constant `ignored_patterns` below). -/
structure MTree where
  root : Option MNode
  root_path : Option String

/-- `MerkleTree.get_root_hash`: raise `EmptyTreeError` when there is no
root, else return the root's hash. -/
def get_root_hash (t : MTree) : Except MerkleError String :=
  match t.root with
  | none => .error .emptyTree
  | some r => .ok r.hash

/-- The `ignored_patterns` set from `MerkleTree.__init__`. -/
def ignored_patterns : List String :=
  [".env", ".gitignore", ".git", ".DS_Store", "__pycache__", ".venv", "venv"]

/-! ## Filesystem model and tree builder (src/merkle/tree.py) -/

/-- A filesystem subtree: a file with byte contents or a directory with
named entries. On a real filesystem the names within a directory are
unique, nonempty and contain no path separator. -/
inductive FSEntry where
  | file (content : List Nat)
  | dir (entries : List (String × FSEntry))

/-- Structural induction for `FSEntry` with the hypothesis available for
every entry of a directory. -/
theorem fsInductionOn {P : FSEntry → Prop}
    (hf : ∀ content, P (.file content))
    (hd : ∀ entries, (∀ k e, (k, e) ∈ entries → P e) → P (.dir entries)) :
    ∀ e, P e
  | .file c => hf c
  | .dir entries => hd entries (fun _ e hmem => fsInductionOn hf hd e)
termination_by e => sizeOf e
decreasing_by
  have h1 := List.sizeOf_lt_of_mem hmem
  simp at h1
  simp
  omega

/-- `os.path.basename`: the final path component. -/
def basename (p : String) : String :=
  (p.splitOn "/").getLastD ""

/-- `os.path.join` for a relative entry name. -/
def joinPath (p item : String) : String :=
  if p.endsWith "/" then p ++ item else p ++ "/" ++ item

/-- `sorted(os.listdir(path))` together with the per-name filesystem
lookups done by the recursion: the directory's entry list sorted by
name. -/
def sortEntriesByName {α : Type} : List (String × α) → List (String × α) :=
  insSort (fun a b => strLeB a.1 b.1)

theorem sortEntriesByName_perm {α : Type} (l : List (String × α)) :
    (sortEntriesByName l).Perm l :=
  insSort_perm _ l

mutual
/-- `MerkleTree._build_recursive`. The Python function recomputes
`name = os.path.basename(path)`; the embedding passes the entry name
alongside the path, which agrees with `basename(os.path.join(path, item))`
because filesystem entry names are nonempty and contain no separator.
`sha` is the `hashlib.sha256(...).hexdigest()` oracle. Directory entries
are traversed in sorted name order; names in `ignored_patterns` are
skipped. The only exceptions the model can raise are `InvalidHashError`
from node construction, which the Python code does not catch (its
`except (OSError, PermissionError)` handler is for filesystem errors,
which the `FSEntry` model does not produce). -/
def build_recursive (sha : List Nat → String) (name path : String) :
    FSEntry → Except MerkleError MNode
  | .file content => create_file_node name path (sha content)
  | .dir entries => do
    let children ← buildChildren sha path (sortEntriesByName entries)
    let child_hashes := pySortStrings (children.map (fun kc => kc.2.hash))
    let combined := String.intercalate "|" child_hashes
    create_directory_node name path (sha (utf8Encode combined)) children
termination_by e => sizeOf e
decreasing_by
  have hp := (sortEntriesByName_perm entries).sizeOf_eq_sizeOf
  simp
  omega

/-- The loop over `sorted(os.listdir(path))` inside
`MerkleTree._build_recursive`, building the children dict in name order. -/
def buildChildren (sha : List Nat → String) (path : String) :
    List (String × FSEntry) → Except MerkleError (List (String × MNode))
  | [] => pure []
  | (item, e) :: rest =>
    if ignored_patterns.contains item then buildChildren sha path rest
    else do
      let node ← build_recursive sha item (joinPath path item) e
      let others ← buildChildren sha path rest
      pure ((item, node) :: others)
termination_by l => sizeOf l
decreasing_by
  all_goals
    simp
    try omega
end

/-- `MerkleTree.build_from_directory` (also reached through
`MerkleTree.__init__` when a `root_path` is given): raise the
`PathNotFound` failure (`FileNotFoundError`) when the path does not
exist, else build recursively. The filesystem at `root_path` is the
`Option FSEntry` argument; `os.path.abspath` is the identity on the
absolute paths the model works with. -/
def build_from_directory (sha : List Nat → String) (fs : Option FSEntry)
    (root_path : String) : Except MerkleError MTree :=
  match fs with
  | none => .error .fileNotFound
  | some e =>
    (build_recursive sha (basename root_path) root_path e).map
      (fun r => ⟨some r, some root_path⟩)

/-! ## Diff engine (src/merkle/tree.py) -/

mutual
/-- `MerkleTree._add_all_files`: collect every file path in a subtree, in
children order. -/
def add_all_files : MNode → List String
  | .mk _ p _ true _ => [p]
  | .mk _ _ _ false ch => addAllFilesL ch

/-- The loop over `node.children.values()` in `_add_all_files`. -/
def addAllFilesL : List (String × MNode) → List String
  | [] => []
  | (_, c) :: rest => add_all_files c ++ addAllFilesL rest
end

/-- One side of the added/removed handling in `MerkleTree._compare_nodes`:
for each child key absent from the other node's key set, emit every file
path of that child's subtree. Python iterates the set difference in
unspecified order; the embedding uses the children's insertion order. -/
def onlyFiles (c : List (String × MNode)) (otherKeys : List String) : List String :=
  (c.filter (fun kc => ¬ otherKeys.contains kc.1)).flatMap (fun kc => add_all_files kc.2)

mutual
/-- `MerkleTree._compare_nodes`. Equal hashes prune the whole subtree;
a file node on the first side reports its path; otherwise the children
are compared by key sets. The `changed_files` accumulator list becomes
the returned list. -/
def compareNodes (n1 n2 : MNode) : List String :=
  if n1.hash = n2.hash then []
  else if n1.isFileN then [n1.path]
  else
    let c1 := n1.childrenL
    let c2 := n2.childrenL
    onlyFiles c1 (c2.map Prod.fst) ++ onlyFiles c2 (c1.map Prod.fst)
      ++ compareCommon c1 c2
termination_by sizeOf n1 + sizeOf n2
decreasing_by
  have s1 : sizeOf n1.childrenL < sizeOf n1 := by
    cases n1
    simp [MNode.childrenL]
    try omega
  have s2 : sizeOf n2.childrenL < sizeOf n2 := by
    cases n2
    simp [MNode.childrenL]
    try omega
  omega

/-- The loop over common child names in `_compare_nodes`, in the first
dict's insertion order. -/
def compareCommon (c1 c2 : List (String × MNode)) : List String :=
  match c1 with
  | [] => []
  | (k, a) :: rest =>
    (match hl : alookup c2 k with
     | some b => compareNodes a b
     | none => []) ++ compareCommon rest c2
termination_by sizeOf c1 + sizeOf c2
decreasing_by
  all_goals
    first
      | (have hb := alookup_sizeOf hl
         simp
         try omega)
      | (simp
         try omega)
end

/-- `MerkleTree.find_differences`: empty when either tree lacks a root,
else the recursive comparison of the two roots. -/
def find_differences (t1 t2 : MTree) : List String :=
  match t1.root, t2.root with
  | some r1, some r2 => compareNodes r1 r2
  | _, _ => []

/-! ## File count (src/merkle/tree.py) -/

mutual
/-- `MerkleTree._count_files`. -/
def count_files : MNode → Nat
  | .mk _ _ _ true _ => 1
  | .mk _ _ _ false ch => countFilesL ch

/-- The loop over children in `_count_files`. -/
def countFilesL : List (String × MNode) → Nat
  | [] => 0
  | (_, c) :: rest => count_files c + countFilesL rest
end

/-- `MerkleTree.get_file_count`. -/
def get_file_count (t : MTree) : Nat :=
  match t.root with
  | none => 0
  | some r => count_files r

/-! ## Serializer (src/merkle/tree.py) -/

/-- The JSON-compatible values that `to_dict` / `from_dict` exchange:
strings, booleans, `None`, and string-keyed dicts in insertion order. -/
inductive JVal where
  | s (v : String)
  | b (v : Bool)
  | null
  | obj (fields : List (String × JVal))

/-- Python truthiness of a record value (`if data["root"]:` and
`if data["is_file"]:`): `None`, `False`, the empty string and the empty
dict are falsy. -/
def JVal.truthy : JVal → Bool
  | .null => false
  | .b v => v
  | .s v => !v.isEmpty
  | .obj fields => !fields.isEmpty

/-- Dictionary indexing `data[k]`: `KeyError` when the key is missing,
`TypeError` when the value is not a dict. -/
def jGet (data : JVal) (k : String) : Except MerkleError JVal :=
  match data with
  | .obj fields =>
    match alookup fields k with
    | some v => .ok v
    | none => .error .keyError
  | _ => .error .typeError

theorem jGet_sizeOf {data v : JVal} {k : String} (h : jGet data k = .ok v) :
    sizeOf v < sizeOf data := by
  cases data with
  | s w => simp [jGet] at h
  | b w => simp [jGet] at h
  | null => simp [jGet] at h
  | obj fields =>
    simp only [jGet] at h
    cases hl : alookup fields k with
    | none => simp [hl] at h
    | some w =>
      simp only [hl] at h
      cases h
      have := alookup_sizeOf hl
      simp
      omega

mutual
/-- `MerkleTree._node_to_dict`: the fields `name`, `path`, `hash`,
`is_file` in insertion order, plus a `children` field exactly when the
node is a directory whose children dict is truthy (nonempty). -/
def node_to_dict : MNode → JVal
  | .mk n p h b ch =>
    .obj ([("name", .s n), ("path", .s p), ("hash", .s h), ("is_file", .b b)] ++
      (if !b && !ch.isEmpty then [("children", .obj (childrenToDict ch))] else []))

/-- The dict comprehension over children in `_node_to_dict`. -/
def childrenToDict : List (String × MNode) → List (String × JVal)
  | [] => []
  | (k, c) :: rest => (k, node_to_dict c) :: childrenToDict rest
end

/-- `MerkleTree.to_dict`: `root` (serialized root or `None`) and
`root_path`. -/
def to_dict (t : MTree) : JVal :=
  match t.root with
  | none => .obj [("root", .null), ("root_path", match t.root_path with
      | none => .null
      | some s => .s s)]
  | some r => .obj [("root", node_to_dict r), ("root_path", match t.root_path with
      | none => .null
      | some s => .s s)]

mutual
/-- `MerkleTree._node_from_dict`. File records are rebuilt with
`create_file_node`, directory records with `create_directory_node`; a
missing `children` field yields an empty children dict. The `name` and
`path` fields are required to be strings (Python is dynamically typed
here, but every record `to_dict` produces carries strings); a non-string
`hash` is rejected by `_validate_hash` itself as `InvalidHashError`. In
the directory branch the children are converted before the `name`,
`path` and `hash` lookups, as in the source. -/
def node_from_dict (data : JVal) : Except MerkleError MNode :=
  match jGet data "is_file" with
  | .error e => .error e
  | .ok isf =>
    if isf.truthy then
      match jGet data "name", jGet data "path", jGet data "hash" with
      | .ok (.s n), .ok (.s p), .ok (.s h) => create_file_node n p h
      | .ok (.s _), .ok (.s _), .ok _ => .error .invalidHash
      | .error e, _, _ => .error e
      | _, .error e, _ => .error e
      | _, _, .error e => .error e
      | _, _, _ => .error .typeError
    else
      match hch : jGet data "children" with
      | .error .keyError =>
        match jGet data "name", jGet data "path", jGet data "hash" with
        | .ok (.s n), .ok (.s p), .ok (.s h) => create_directory_node n p h []
        | .ok (.s _), .ok (.s _), .ok _ => .error .invalidHash
        | .error e, _, _ => .error e
        | _, .error e, _ => .error e
        | _, _, .error e => .error e
        | _, _, _ => .error .typeError
      | .error e => .error e
      | .ok (.obj cf) =>
        match childrenFromDict cf with
        | .error e => .error e
        | .ok children =>
          match jGet data "name", jGet data "path", jGet data "hash" with
          | .ok (.s n), .ok (.s p), .ok (.s h) => create_directory_node n p h children
          | .ok (.s _), .ok (.s _), .ok _ => .error .invalidHash
          | .error e, _, _ => .error e
          | _, .error e, _ => .error e
          | _, _, .error e => .error e
          | _, _, _ => .error .typeError
      | .ok _ => .error .typeError
termination_by sizeOf data
decreasing_by
  have h1 := jGet_sizeOf hch
  simp at h1
  omega

/-- The dict comprehension over `data["children"].items()` in
`_node_from_dict`. -/
def childrenFromDict : List (String × JVal) → Except MerkleError (List (String × MNode))
  | [] => pure []
  | (k, cd) :: rest => do
    let c ← node_from_dict cd
    let cs ← childrenFromDict rest
    pure ((k, c) :: cs)
termination_by l => sizeOf l
decreasing_by
  all_goals
    simp
    try omega
end

/-- `MerkleTree.from_dict`: a fresh tree, `root_path` from
`data.get("root_path")` (absent or `None` become `None`; the model also
maps the untyped remaining cases to `None`, which `to_dict` never emits),
then the root node when `data["root"]` is truthy. -/
def from_dict (data : JVal) : Except MerkleError MTree :=
  let root_path :=
    match data with
    | .obj fields =>
      match alookup fields "root_path" with
      | some (.s s) => some s
      | _ => none
    | _ => none
  match jGet data "root" with
  | .error e => .error e
  | .ok rootV =>
    if rootV.truthy then
      (node_from_dict rootV).map (fun r => ⟨some r, root_path⟩)
    else
      .ok ⟨none, root_path⟩

/-! ## Specification-side predicates and abstractions

These are not embeddings of Python functions; they characterize the
shapes of values the embedded code produces and are related to the code
by the lemmas below. -/

/-- Exactly 64 lowercase hex characters: what
`hashlib.sha256(...).hexdigest()` always returns. -/
def hexLower64 (h : String) : Bool :=
  (h.length == 64) && h.data.all (fun c => c.isDigit || ('a' ≤ c && c ≤ 'f'))

/-- The guarantee the SHA-256 oracle enjoys in the real program. -/
def shaOk (sha : List Nat → String) : Prop :=
  ∀ b, hexLower64 (sha b) = true

/-- A hash string as stored inside a constructed `MerkleNode`: it passed
validation and is already lowercase. -/
def wfHash (h : String) : Bool :=
  (h.length == 64) && h.data.all isHexChar && (asciiLower h == h)

mutual
/-- Every node reachable in Python satisfies this: hashes are stored in
validated lowercase form and file nodes have no children. -/
def wfNode : MNode → Bool
  | .mk _ _ h b ch => wfHash h && (if b then ch.isEmpty else wfChildren ch)

def wfChildren : List (String × MNode) → Bool
  | [] => true
  | (_, c) :: rest => wfNode c && wfChildren rest
end

/-- A tree whose root (when present) is well formed. -/
def wfTree (t : MTree) : Bool :=
  match t.root with
  | none => true
  | some r => wfNode r

/-- The entries of a directory listing that survive the ignore filter. -/
def survivors {α : Type} (entries : List (String × α)) : List (String × α) :=
  entries.filter (fun ke => ¬ ignored_patterns.contains ke.1)

mutual
/-- The hash that `_build_recursive` stores for a filesystem subtree,
computed directly on the filesystem model: file hashes are the lowercased
digest of the contents, directory hashes combine the surviving children's
hashes sorted as strings and joined with the separator. -/
def hashOfFS (sha : List Nat → String) : FSEntry → String
  | .file content => asciiLower (sha content)
  | .dir entries =>
    asciiLower (sha (utf8Encode
      (String.intercalate "|" (pySortStrings (hashChildrenFS sha entries)))))

def hashChildrenFS (sha : List Nat → String) : List (String × FSEntry) → List String
  | [] => []
  | (k, e) :: rest =>
    if ignored_patterns.contains k then hashChildrenFS sha rest
    else hashOfFS sha e :: hashChildrenFS sha rest
end

mutual
/-- Remove every ignored entry, at every depth, from a filesystem tree.
Two directory contents that differ only inside ignored entries have equal
`stripIgnored` images. -/
def stripIgnored : FSEntry → FSEntry
  | .file c => .file c
  | .dir entries => .dir (stripChildren entries)

def stripChildren : List (String × FSEntry) → List (String × FSEntry)
  | [] => []
  | (k, e) :: rest =>
    if ignored_patterns.contains k then stripChildren rest
    else (k, stripIgnored e) :: stripChildren rest
end

mutual
/-- Claim C2's property of a node tree: every directory node's hash is the
digest of its children's hash strings, sorted as strings and joined with
the separator, UTF-8 encoded. -/
def dirHashOk (sha : List Nat → String) : MNode → Bool
  | .mk _ _ _ true _ => true
  | .mk _ _ h false ch =>
    (h == sha (utf8Encode
      (String.intercalate "|" (pySortStrings (ch.map (fun kc => kc.2.hash))))))
      && dirHashOkL sha ch

def dirHashOkL (sha : List Nat → String) : List (String × MNode) → Bool
  | [] => true
  | (_, c) :: rest => dirHashOk sha c && dirHashOkL sha rest
end

mutual
/-- No child key and no node name anywhere below this node belongs to the
ignore set. -/
def noIgnoredNames : MNode → Bool
  | .mk _ _ _ _ ch => noIgnoredL ch

def noIgnoredL : List (String × MNode) → Bool
  | [] => true
  | (k, c) :: rest =>
    !(ignored_patterns.contains k) && !(ignored_patterns.contains c.name)
      && noIgnoredNames c && noIgnoredL rest
end

/-! ## Basic lemmas about hashes and validation -/

theorem toLower_fixed_of_not_upper {c : Char} (h : ¬ (65 ≤ c.toNat ∧ c.toNat ≤ 90)) :
    c.toLower = c := by
  simp only [Char.toLower]
  split
  · omega
  · rfl


theorem hexLower64_chars {h : String} (hh : hexLower64 h = true) :
    asciiLower h = h := by
  obtain ⟨data⟩ := h
  simp only [hexLower64, Bool.and_eq_true, beq_iff_eq, List.all_eq_true] at hh
  obtain ⟨_, hall⟩ := hh
  simp only [asciiLower]
  congr 1
  have hfix : ∀ c ∈ data, c.toLower = c := by
    intro c hc
    have hb := hall c hc
    simp only [Bool.or_eq_true, Bool.and_eq_true, decide_eq_true_eq] at hb
    apply toLower_fixed_of_not_upper
    have h48 : (48 : UInt32).toNat = 48 := by decide
    have h57 : (57 : UInt32).toNat = 57 := by decide
    have h97 : ('a' : Char).val.toNat = 97 := by decide
    have h102 : ('f' : Char).val.toNat = 102 := by decide
    rcases hb with hd | ⟨h1, h2⟩
    · simp only [Char.isDigit, Bool.and_eq_true, decide_eq_true_eq] at hd
      obtain ⟨hd1, hd2⟩ := hd
      have g1 : (48 : UInt32).toNat ≤ c.val.toNat := hd1
      have g2 : c.val.toNat ≤ (57 : UInt32).toNat := hd2
      simp only [Char.toNat]
      omega
    · have g1 : ('a' : Char).val.toNat ≤ c.val.toNat := h1
      have g2 : c.val.toNat ≤ ('f' : Char).val.toNat := h2
      simp only [Char.toNat]
      omega
  exact (List.map_congr_left hfix).trans (List.map_id data)

theorem wfHash_of_hexLower64 {h : String} (hh : hexLower64 h = true) :
    wfHash h = true := by
  have hfix := hexLower64_chars hh
  simp only [hexLower64, Bool.and_eq_true, beq_iff_eq, List.all_eq_true] at hh
  obtain ⟨hlen, hall⟩ := hh
  simp only [wfHash, Bool.and_eq_true, beq_iff_eq, List.all_eq_true]
  refine ⟨⟨hlen, ?_⟩, hfix⟩
  intro c hc
  have hb := hall c hc
  simp only [Bool.or_eq_true, Bool.and_eq_true, decide_eq_true_eq] at hb
  simp only [isHexChar, Bool.or_eq_true, Bool.and_eq_true, decide_eq_true_eq]
  rcases hb with hd | hb
  · right
    exact hd
  · left
    left
    exact hb

theorem validate_hash_ok_of_wfHash {h : String} (hw : wfHash h = true) :
    validate_hash h = .ok h := by
  simp only [wfHash, Bool.and_eq_true, beq_iff_eq] at hw
  obtain ⟨⟨hlen, hall⟩, hfix⟩ := hw
  simp only [validate_hash, hlen]
  simp [hall, hfix]

theorem validate_hash_error_iff (s : String) :
    validate_hash s = .error .invalidHash
      ↔ ¬ (s.length = 64 ∧ s.data.all isHexChar = true) := by
  simp only [validate_hash]
  by_cases h1 : s.length = 64
  · by_cases h2 : s.data.all isHexChar = true
    · simp [h1, h2]
    · simp [h1, h2]
  · simp [h1]

theorem validate_hash_ok_iff (s r : String) :
    validate_hash s = .ok r
      ↔ s.length = 64 ∧ s.data.all isHexChar = true ∧ r = asciiLower s := by
  simp only [validate_hash]
  by_cases h1 : s.length = 64 <;> by_cases h2 : s.data.all isHexChar = true
  · simp [h1, h2, eq_comm]
  · simp [h1, h2]
  · simp [h1]
  · simp [h1]
/-! ## Round-trip lemmas (serializer) -/

theorem compareNodes_hash_eq {n1 n2 : MNode} (h : n1.hash = n2.hash) :
    compareNodes n1 n2 = [] := by
  rw [compareNodes]
  simp [h]

theorem childrenFromDict_toDict (ch : List (String × MNode))
    (ih : ∀ k c, (k, c) ∈ ch → wfNode c = true → node_from_dict (node_to_dict c) = .ok c)
    (hw : wfChildren ch = true) :
    childrenFromDict (childrenToDict ch) = .ok ch := by
  induction ch with
  | nil =>
    simp only [childrenToDict]
    rw [childrenFromDict]
    rfl
  | cons kc rest ihl =>
    obtain ⟨k, c⟩ := kc
    simp only [wfChildren, Bool.and_eq_true] at hw
    simp only [childrenToDict]
    rw [childrenFromDict]
    rw [ih k c (by simp) hw.1]
    rw [ihl (fun k2 c2 hm hw2 => ih k2 c2 (by simp [hm]) hw2) hw.2]
    rfl

theorem node_round_trip (n : MNode) (hw : wfNode n = true) :
    node_from_dict (node_to_dict n) = .ok n := by
  induction n using mnodeInductionOn with
  | h nm p h b ch ih =>
  simp only [wfNode, Bool.and_eq_true] at hw
  obtain ⟨hwh, hrest⟩ := hw
  cases b with
  | true =>
    have hche : ch = [] := by
      simp only [if_true, if_pos] at hrest
      exact List.isEmpty_iff.mp hrest
    subst hche
    rw [node_from_dict]
    show (validate_hash h).map (fun h2 => MNode.mk nm p h2 true []) =
      Except.ok (MNode.mk nm p h true [])
    rw [validate_hash_ok_of_wfHash hwh]
    rfl
  | false =>
    replace hrest : wfChildren ch = true := by simpa using hrest
    cases ch with
    | nil =>
      rw [node_from_dict]
      show (validate_hash h).map (fun h2 => MNode.mk nm p h2 false []) =
        Except.ok (MNode.mk nm p h false [])
      rw [validate_hash_ok_of_wfHash hwh]
      rfl
    | cons kc0 rest0 =>
      rw [node_from_dict]
      have key :
          (match jGet (node_to_dict (MNode.mk nm p h false (kc0 :: rest0))) "is_file" with
            | Except.error e => Except.error e
            | Except.ok isf =>
              if isf.truthy = true then
                match jGet (node_to_dict (MNode.mk nm p h false (kc0 :: rest0))) "name",
                  jGet (node_to_dict (MNode.mk nm p h false (kc0 :: rest0))) "path",
                  jGet (node_to_dict (MNode.mk nm p h false (kc0 :: rest0))) "hash" with
                | Except.ok (JVal.s n), Except.ok (JVal.s p2), Except.ok (JVal.s h2) =>
                  create_file_node n p2 h2
                | Except.ok (JVal.s _), Except.ok (JVal.s _), Except.ok _ =>
                  Except.error MerkleError.invalidHash
                | Except.error e, _, _ => Except.error e
                | _, Except.error e, _ => Except.error e
                | _, _, Except.error e => Except.error e
                | _, _, _ => Except.error MerkleError.typeError
              else
                match hch : jGet (node_to_dict (MNode.mk nm p h false (kc0 :: rest0))) "children" with
                | Except.error MerkleError.keyError =>
                  match jGet (node_to_dict (MNode.mk nm p h false (kc0 :: rest0))) "name",
                    jGet (node_to_dict (MNode.mk nm p h false (kc0 :: rest0))) "path",
                    jGet (node_to_dict (MNode.mk nm p h false (kc0 :: rest0))) "hash" with
                  | Except.ok (JVal.s n), Except.ok (JVal.s p2), Except.ok (JVal.s h2) =>
                    create_directory_node n p2 h2 []
                  | Except.ok (JVal.s _), Except.ok (JVal.s _), Except.ok _ =>
                    Except.error MerkleError.invalidHash
                  | Except.error e, _, _ => Except.error e
                  | _, Except.error e, _ => Except.error e
                  | _, _, Except.error e => Except.error e
                  | _, _, _ => Except.error MerkleError.typeError
                | Except.error e => Except.error e
                | Except.ok (JVal.obj cf) =>
                  match childrenFromDict cf with
                  | Except.error e => Except.error e
                  | Except.ok children =>
                    match jGet (node_to_dict (MNode.mk nm p h false (kc0 :: rest0))) "name",
                      jGet (node_to_dict (MNode.mk nm p h false (kc0 :: rest0))) "path",
                      jGet (node_to_dict (MNode.mk nm p h false (kc0 :: rest0))) "hash" with
                    | Except.ok (JVal.s n), Except.ok (JVal.s p2), Except.ok (JVal.s h2) =>
                      create_directory_node n p2 h2 children
                    | Except.ok (JVal.s _), Except.ok (JVal.s _), Except.ok _ =>
                      Except.error MerkleError.invalidHash
                    | Except.error e, _, _ => Except.error e
                    | _, Except.error e, _ => Except.error e
                    | _, _, Except.error e => Except.error e
                    | _, _, _ => Except.error MerkleError.typeError
                | Except.ok _ => Except.error MerkleError.typeError)
            = (match childrenFromDict (childrenToDict (kc0 :: rest0)) with
              | Except.error e => Except.error e
              | Except.ok children =>
                (validate_hash h).map
                  (fun h2 => MNode.mk nm p h2 false children)) := rfl
      rw [key]
      rw [childrenFromDict_toDict (kc0 :: rest0) (fun k c hm hwc => ih k c hm hwc) hrest]
      rw [validate_hash_ok_of_wfHash hwh]
      rfl

theorem node_to_dict_truthy (n : MNode) : (node_to_dict n).truthy = true := by
  cases n with
  | mk nm p h b ch => simp [node_to_dict, JVal.truthy]

theorem tree_round_trip (t : MTree) (hw : wfTree t = true) :
    from_dict (to_dict t) = .ok t := by
  obtain ⟨root, rp⟩ := t
  cases root with
  | none =>
    cases rp with
    | none => rfl
    | some s => rfl
  | some r =>
    replace hw : wfNode r = true := by simpa [wfTree] using hw
    cases rp with
    | none =>
      show (if (node_to_dict r).truthy = true
          then (node_from_dict (node_to_dict r)).map (fun rr => (⟨some rr, none⟩ : MTree))
          else .ok ⟨none, none⟩) = .ok ⟨some r, none⟩
      rw [node_to_dict_truthy r]
      rw [node_round_trip r hw]
      rfl
    | some s =>
      show (if (node_to_dict r).truthy = true
          then (node_from_dict (node_to_dict r)).map (fun rr => (⟨some rr, some s⟩ : MTree))
          else .ok ⟨none, some s⟩) = .ok ⟨some r, some s⟩
      rw [node_to_dict_truthy r]
      rw [node_round_trip r hw]
      rfl

/-- C1: round-trip fidelity of the serializer: deserializing the
serialization of a well-formed tree succeeds and yields a tree with the
same root hash, the same root_path, the same file count, and no
differences against the original in either direction. (Well-formedness —
validated lowercase hashes, childless file nodes — holds for every tree
the Python code can construct, since `MerkleNode.__init__` validates
every hash.) -/
theorem C1_serializer_round_trip (t : MTree) (hw : wfTree t = true) :
    ∃ t2, from_dict (to_dict t) = Except.ok t2
      ∧ get_root_hash t2 = get_root_hash t
      ∧ t2.root_path = t.root_path
      ∧ get_file_count t2 = get_file_count t
      ∧ find_differences t2 t = []
      ∧ find_differences t t2 = [] := by
  refine ⟨t, tree_round_trip t hw, rfl, rfl, rfl, ?_, ?_⟩ <;>
  · obtain ⟨root, rp⟩ := t
    cases root with
    | none => rfl
    | some r => exact compareNodes_hash_eq rfl

/-- A 64-character lowercase hex string for concrete examples. -/
def demoHashA : String :=
  "aaaaaaaaaaaaaaaaaaaaaaaaaaaaaaaaaaaaaaaaaaaaaaaaaaaaaaaaaaaaaaaa"

/-- A second, distinct 64-character lowercase hex string. -/
def demoHashB : String :=
  "bbbbbbbbbbbbbbbbbbbbbbbbbbbbbbbbbbbbbbbbbbbbbbbbbbbbbbbbbbbbbbbb"

/-- A third distinct 64-character lowercase hex string. -/
def demoHashC : String :=
  "cccccccccccccccccccccccccccccccccccccccccccccccccccccccccccccccc"

/-- A small concrete tree: a root directory with one file child and one
empty subdirectory. -/
def demoTree : MTree :=
  ⟨some (.mk "r" "/r" demoHashA false
    [("a.txt", .mk "a.txt" "/r/a.txt" demoHashB true []),
     ("sub", .mk "sub" "/r/sub" demoHashC false [])]), some "/r"⟩

theorem C1_witness :
    wfTree demoTree = true
      ∧ ∃ t2, from_dict (to_dict demoTree) = Except.ok t2
          ∧ get_root_hash t2 = get_root_hash demoTree
          ∧ t2.root_path = demoTree.root_path
          ∧ get_file_count t2 = get_file_count demoTree
          ∧ find_differences t2 demoTree = []
          ∧ find_differences demoTree t2 = [] :=
  ⟨by decide, C1_serializer_round_trip demoTree (by decide)⟩

/-! ## Claim C10: root-hash access -/

/-- C10: `get_root_hash` raises `EmptyTreeError` exactly when the tree has
no root, and returns the root node's hash otherwise. -/
theorem C10_get_root_hash (t : MTree) :
    (get_root_hash t = .error .emptyTree ↔ t.root = none)
      ∧ ∀ n, t.root = some n → get_root_hash t = .ok n.hash := by
  obtain ⟨root, rp⟩ := t
  cases root <;> simp [get_root_hash]

theorem C10_witness :
    get_root_hash demoTree = .ok demoHashA
      ∧ get_root_hash ⟨none, none⟩ = .error .emptyTree :=
  ⟨(C10_get_root_hash demoTree).2 _ rfl,
   (C10_get_root_hash ⟨none, none⟩).1.mpr rfl⟩

/-! ## Claim C5: hash validation at node construction -/

theorem validate_hash_error_eq {s : String} {e : MerkleError}
    (h : validate_hash s = .error e) : e = .invalidHash := by
  simp only [validate_hash] at h
  by_cases h1 : s.length = 64
  · by_cases h2 : s.data.all isHexChar = true
    · simp [h1, h2] at h
    · simp [h1, h2] at h
      exact h.symm
  · simp [h1] at h
    exact h.symm

/-- C5: constructing any node (file or directory) fails with
`InvalidHashError` exactly when the supplied hash string is not 64 hex
characters (either case), and on success the stored hash is the lowercase
form of the input. (`from_dict` reconstructs nodes through these same
constructors, so the property also covers deserialization.) -/
theorem C5_hash_validation (s : String) :
    (validate_hash s = .error .invalidHash
        ↔ ¬ (s.length = 64 ∧ s.data.all isHexChar = true))
      ∧ (∀ name path, create_file_node name path s = .error .invalidHash
          ↔ ¬ (s.length = 64 ∧ s.data.all isHexChar = true))
      ∧ (∀ name path ch, create_directory_node name path s ch = .error .invalidHash
          ↔ ¬ (s.length = 64 ∧ s.data.all isHexChar = true))
      ∧ (∀ name path n, create_file_node name path s = .ok n → n.hash = asciiLower s)
      ∧ (∀ name path ch n, create_directory_node name path s ch = .ok n
          → n.hash = asciiLower s) := by
  refine ⟨validate_hash_error_iff s, ?_, ?_, ?_, ?_⟩
  · intro name path
    simp only [create_file_node, nodeInit]
    cases hv : validate_hash s with
    | error e =>
      have he := validate_hash_error_eq hv
      subst he
      simpa [Except.map] using (validate_hash_error_iff s).mp hv
    | ok r =>
      simp only [Except.map]
      constructor
      · intro h
        cases h
      · intro h
        exact absurd hv (by
          intro hv2
          have := (validate_hash_ok_iff s r).mp hv2
          exact h ⟨this.1, this.2.1⟩)
  · intro name path ch
    simp only [create_directory_node, nodeInit]
    cases hv : validate_hash s with
    | error e =>
      have he := validate_hash_error_eq hv
      subst he
      simpa [Except.map] using (validate_hash_error_iff s).mp hv
    | ok r =>
      simp only [Except.map]
      constructor
      · intro h
        cases h
      · intro h
        exact absurd hv (by
          intro hv2
          have := (validate_hash_ok_iff s r).mp hv2
          exact h ⟨this.1, this.2.1⟩)
  · intro name path n h
    simp only [create_file_node, nodeInit] at h
    cases hv : validate_hash s with
    | error e =>
      rw [hv] at h
      cases h
    | ok r =>
      rw [hv] at h
      simp only [Except.map] at h
      cases h
      simp only [MNode.hash]
      exact ((validate_hash_ok_iff s r).mp hv).2.2
  · intro name path ch n h
    simp only [create_directory_node, nodeInit] at h
    cases hv : validate_hash s with
    | error e =>
      rw [hv] at h
      cases h
    | ok r =>
      rw [hv] at h
      simp only [Except.map] at h
      cases h
      simp only [MNode.hash]
      exact ((validate_hash_ok_iff s r).mp hv).2.2

theorem C5_witness :
    (create_file_node "f" "/f" "not-a-hash" = .error .invalidHash)
      ∧ (∀ n, create_file_node "f" "/f"
          "AAAAAAAAAAAAAAAAAAAAAAAAAAAAAAAAAAAAAAAAAAAAAAAAAAAAAAAAAAAAAAAA"
          = .ok n → n.hash = asciiLower
          "AAAAAAAAAAAAAAAAAAAAAAAAAAAAAAAAAAAAAAAAAAAAAAAAAAAAAAAAAAAAAAAA") :=
  ⟨((C5_hash_validation "not-a-hash").2.1 "f" "/f").mpr (by decide),
   fun n => (C5_hash_validation
     "AAAAAAAAAAAAAAAAAAAAAAAAAAAAAAAAAAAAAAAAAAAAAAAAAAAAAAAAAAAAAAAA").2.2.2.1
     "f" "/f" n⟩

/-! ## Claim C9: immutability and `add_child` -/

/-- C9 fails as stated: `MerkleNode.add_child` is a public operation that
changes a directory node's children after construction. Here a childless
directory gains a child. -/
theorem C9_counterexample :
    (add_child (.mk "d" "/d" demoHashA false [])
        (.mk "f.txt" "/d/f.txt" demoHashB true [])).map MNode.childrenL
      = .ok [("f.txt", .mk "f.txt" "/d/f.txt" demoHashB true [])]
      ∧ MNode.childrenL (.mk "d" "/d" demoHashA false []) = [] :=
  ⟨rfl, rfl⟩

/-- C9 amended: the build/serialize/diff/count operations never modify an
existing node or tree, but `MerkleNode.add_child` — public, although
called nowhere in the repository — mutates a directory node's children in
place (modelled by returning the updated node): on a directory it stores
the child under `child.name`, and only on a file node does it fail
(`ValueError`) leaving nothing changed. -/
theorem C9_add_child_mutates (d c : MNode) :
    (d.isFileN = false →
        add_child d c
          = .ok (.mk d.name d.path d.hash false (dictInsert d.childrenL c.name c)))
      ∧ (d.isFileN = true → add_child d c = .error .valueError) := by
  constructor
  · intro h
    simp [add_child, h]
  · intro h
    simp [add_child, h]

theorem C9_witness :
    add_child (.mk "d" "/d" demoHashA false [])
        (.mk "f.txt" "/d/f.txt" demoHashB true [])
      = .ok (.mk "d" "/d" demoHashA false
          [("f.txt", .mk "f.txt" "/d/f.txt" demoHashB true [])])
      ∧ add_child (.mk "g" "/g" demoHashA true [])
          (.mk "f.txt" "/d/f.txt" demoHashB true [])
        = .error .valueError :=
  ⟨(C9_add_child_mutates (.mk "d" "/d" demoHashA false [])
      (.mk "f.txt" "/d/f.txt" demoHashB true [])).1 rfl,
   (C9_add_child_mutates (.mk "g" "/g" demoHashA true [])
      (.mk "f.txt" "/d/f.txt" demoHashB true [])).2 rfl⟩

/-! ## Claim C7: serialized record shape -/

/-- C7 fails as stated: the record of a childless directory node has no
`children` field (the Python guard `if not node.is_file and node.children:`
is false for an empty children dict). -/
theorem C7_counterexample :
    MNode.isFileN (.mk "d" "/d" demoHashA false []) = false
      ∧ jGet (node_to_dict (.mk "d" "/d" demoHashA false [])) "children"
          = .error .keyError :=
  ⟨rfl, rfl⟩

/-- C7 amended: a File node's record never has a `children` field, and a
Directory node's record has a `children` field exactly when its children
dict is nonempty; when present it maps each child key to that child's
record. -/
theorem C7_record_shape (n : MNode) :
    (n.isFileN = true → jGet (node_to_dict n) "children" = .error .keyError)
      ∧ (n.isFileN = false → n.childrenL = [] →
          jGet (node_to_dict n) "children" = .error .keyError)
      ∧ (n.isFileN = false → n.childrenL ≠ [] →
          jGet (node_to_dict n) "children" = .ok (.obj (childrenToDict n.childrenL))) := by
  obtain ⟨nm, p, h, b, ch⟩ := n
  cases b with
  | true =>
    refine ⟨fun _ => rfl, ?_, ?_⟩
    · intro hb
      cases hb
    · intro hb
      cases hb
  | false =>
    refine ⟨?_, ?_, ?_⟩
    · intro hb
      cases hb
    · intro _ hch
      simp only [MNode.childrenL] at hch
      subst hch
      rfl
    · intro _ hch
      simp only [MNode.childrenL] at hch ⊢
      cases ch with
      | nil => exact absurd rfl hch
      | cons kc rest => rfl

theorem C7_witness :
    jGet (node_to_dict (.mk "f.txt" "/r/f.txt" demoHashB true [])) "children"
        = .error .keyError
      ∧ jGet (node_to_dict (.mk "r" "/r" demoHashA false
          [("f.txt", .mk "f.txt" "/r/f.txt" demoHashB true [])])) "children"
        = .ok (.obj [("f.txt", node_to_dict (.mk "f.txt" "/r/f.txt" demoHashB true []))]) :=
  ⟨(C7_record_shape (.mk "f.txt" "/r/f.txt" demoHashB true [])).1 rfl,
   (C7_record_shape (.mk "r" "/r" demoHashA false
      [("f.txt", .mk "f.txt" "/r/f.txt" demoHashB true [])])).2.2 rfl
     (by simp [MNode.childrenL])⟩

/-! ## Claim C3: File/Directory handling in the diff step -/

theorem addAllFilesL_eq_flatMap (c : List (String × MNode)) :
    addAllFilesL c = c.flatMap (fun kc => add_all_files kc.2) := by
  induction c with
  | nil => rfl
  | cons kc rest ih =>
    obtain ⟨k, v⟩ := kc
    simp [addAllFilesL, ih]

theorem onlyFiles_no_other (c : List (String × MNode)) :
    onlyFiles c [] = addAllFilesL c := by
  simp [onlyFiles, addAllFilesL_eq_flatMap]

theorem compareCommon_nil_right (c1 : List (String × MNode)) :
    compareCommon c1 [] = [] := by
  induction c1 with
  | nil => rw [compareCommon]
  | cons kc rest ih =>
    obtain ⟨k, a⟩ := kc
    rw [compareCommon]
    simpa [alookup] using ih

/-- C3 fails as stated: when `nodeA` is a Directory and `nodeB` is a File
with a different hash (same name on both sides), `_compare_nodes` does not
report the File-side path; it descends into the Directory side and
reports every file underneath it. -/
theorem C3_counterexample :
    compareNodes
        (.mk "x" "/a/x" demoHashA false [("f", .mk "f" "/a/x/f" demoHashB true [])])
        (.mk "x" "/b/x" demoHashC true [])
      = ["/a/x/f"]
      ∧ ("/a/x/f" : String) ≠ "/b/x"
      ∧ ("/a/x/f" : String) ≠ "/a/x" := by
  refine ⟨?_, by decide, by decide⟩
  rw [compareNodes]
  have hne : demoHashA ≠ demoHashC := by decide
  simp [MNode.hash, MNode.isFileN, MNode.path, MNode.childrenL, hne, onlyFiles,
    add_all_files, addAllFilesL, compareCommon_nil_right]

/-- C3 amended: when the hashes differ, a File `nodeA` is reported as
exactly `[nodeA.path]` with no descent (a Directory `nodeB`'s contents are
never enumerated); but in the asymmetric case with `nodeA` a Directory and
`nodeB` a File, the code instead descends into `nodeA` and reports every
file path under `nodeA` (the File side's path is not reported). -/
theorem C3_diff_file_step (n1 n2 : MNode) (hne : n1.hash ≠ n2.hash)
    (hw2 : wfNode n2 = true) :
    (n1.isFileN = true → compareNodes n1 n2 = [n1.path])
      ∧ (n1.isFileN = false → n2.isFileN = true →
          compareNodes n1 n2 = addAllFilesL n1.childrenL) := by
  constructor
  · intro h1
    rw [compareNodes]
    simp [hne, h1]
  · intro h1 h2
    have hc2 : n2.childrenL = [] := by
      obtain ⟨nm, p, h, b, ch⟩ := n2
      simp only [MNode.isFileN] at h2
      subst h2
      simp only [wfNode, Bool.and_eq_true, if_true, if_pos] at hw2
      simp only [MNode.childrenL]
      exact List.isEmpty_iff.mp hw2.2
    rw [compareNodes]
    simp [hne, h1, hc2, onlyFiles_no_other, compareCommon_nil_right, onlyFiles,
      addAllFilesL_eq_flatMap]

theorem C3_witness :
    compareNodes
        (.mk "x" "/a/x" demoHashA false [("f", .mk "f" "/a/x/f" demoHashB true [])])
        (.mk "x" "/b/x" demoHashC true [])
      = addAllFilesL [("f", .mk "f" "/a/x/f" demoHashB true [])]
      ∧ compareNodes (.mk "g" "/a/g" demoHashA true [])
          (.mk "g" "/b/g" demoHashC false [])
        = ["/a/g"] :=
  ⟨(C3_diff_file_step
      (.mk "x" "/a/x" demoHashA false [("f", .mk "f" "/a/x/f" demoHashB true [])])
      (.mk "x" "/b/x" demoHashC true []) (by decide) (by decide)).2 rfl rfl,
   (C3_diff_file_step (.mk "g" "/a/g" demoHashA true [])
      (.mk "g" "/b/g" demoHashC false []) (by decide) (by decide)).1 rfl⟩

/-! ## Build characterization lemmas -/

theorem hashChildrenFS_eq (sha : List Nat → String) (l : List (String × FSEntry)) :
    hashChildrenFS sha l = (survivors l).map (fun ke => hashOfFS sha ke.2) := by
  induction l with
  | nil => rfl
  | cons ke rest ih =>
    obtain ⟨k, e⟩ := ke
    by_cases hk : k ∈ ignored_patterns
    · simp [hashChildrenFS, survivors, List.elem_eq_mem, hk, List.filter] at ih ⊢
      exact ih
    · simp [hashChildrenFS, survivors, List.elem_eq_mem, hk, List.filter] at ih ⊢
      exact ih

theorem buildChildren_hash_shape (sha : List Nat → String) (path : String)
    (l : List (String × FSEntry))
    (ihm : ∀ k e, (k, e) ∈ l → ∀ name p2 n,
      build_recursive sha name p2 e = .ok n → n.hash = hashOfFS sha e)
    {ch : List (String × MNode)} (hb : buildChildren sha path l = .ok ch) :
    ch.map (fun kc => kc.2.hash) = hashChildrenFS sha l := by
  induction l generalizing ch with
  | nil =>
    rw [buildChildren] at hb
    cases hb
    rfl
  | cons ke rest ih =>
    obtain ⟨item, e⟩ := ke
    rw [buildChildren] at hb
    by_cases hk : ignored_patterns.contains item = true
    · rw [if_pos hk] at hb
      simp only [hashChildrenFS, hk, if_true, if_pos]
      exact ih (fun k2 e2 hm => ihm k2 e2 (by simp [hm])) hb
    · rw [if_neg hk] at hb
      rw [hashChildrenFS, if_neg hk]
      cases hn : build_recursive sha item (joinPath path item) e with
      | error err =>
        rw [hn] at hb
        cases hb
      | ok node =>
        rw [hn] at hb
        cases ho : buildChildren sha path rest with
        | error err =>
          rw [ho] at hb
          cases hb
        | ok others =>
          rw [ho] at hb
          simp only [Except.bind, bind, pure, Except.pure] at hb
          cases hb
          have hname := ihm item e (by simp) item (joinPath path item) node hn
          have hrest := ih (fun k2 e2 hm => ihm k2 e2 (by simp [hm])) ho
          simp [hname, hrest]

theorem build_hash (sha : List Nat → String) :
    ∀ e name path n, build_recursive sha name path e = .ok n →
      n.hash = hashOfFS sha e := by
  intro e
  induction e using fsInductionOn with
  | hf content =>
    intro name path n h
    simp only [build_recursive, create_file_node, nodeInit] at h
    cases hv : validate_hash (sha content) with
    | error e2 =>
      rw [hv] at h
      cases h
    | ok r =>
      rw [hv] at h
      simp only [Except.map] at h
      cases h
      simp only [MNode.hash, hashOfFS]
      exact ((validate_hash_ok_iff _ r).mp hv).2.2
  | hd entries ihm =>
    intro name path n h
    rw [build_recursive] at h
    cases hb : buildChildren sha path (sortEntriesByName entries) with
    | error e2 =>
      rw [hb] at h
      simp only [bind, Except.bind] at h
      cases h
    | ok ch =>
      rw [hb] at h
      simp only [bind, Except.bind, create_directory_node, nodeInit] at h
      cases hv : validate_hash (sha (utf8Encode (String.intercalate "|"
          (pySortStrings (ch.map (fun kc => kc.2.hash)))))) with
      | error e2 =>
        rw [hv] at h
        cases h
      | ok r =>
        rw [hv] at h
        simp only [Except.map] at h
        cases h
        have h1 : ch.map (fun kc => kc.2.hash)
            = hashChildrenFS sha (sortEntriesByName entries) :=
          buildChildren_hash_shape sha path _
            (fun k e2 hm => ihm k e2 ((sortEntriesByName_perm entries).mem_iff.mp
              (by exact hm)))
            hb
        have h2 : pySortStrings (hashChildrenFS sha (sortEntriesByName entries))
            = pySortStrings (hashChildrenFS sha entries) := by
          apply pySortStrings_perm_eq
          rw [hashChildrenFS_eq, hashChildrenFS_eq]
          exact ((sortEntriesByName_perm entries).filter _).map _
        simp only [MNode.hash, hashOfFS]
        rw [((validate_hash_ok_iff _ r).mp hv).2.2, h1, h2]

theorem buildChildren_ok (sha : List Nat → String) (hsha : shaOk sha) (path : String)
    (l : List (String × FSEntry))
    (ihm : ∀ k e, (k, e) ∈ l → ∀ name p2, ∃ n, build_recursive sha name p2 e = .ok n) :
    ∃ ch, buildChildren sha path l = .ok ch := by
  induction l with
  | nil =>
    refine ⟨[], ?_⟩
    rw [buildChildren]
    rfl
  | cons ke rest ih =>
    obtain ⟨item, e⟩ := ke
    obtain ⟨others, ho⟩ := ih (fun k2 e2 hm => ihm k2 e2 (by simp [hm]))
    by_cases hk : ignored_patterns.contains item = true
    · refine ⟨others, ?_⟩
      rw [buildChildren, if_pos hk]
      exact ho
    · obtain ⟨node, hn⟩ := ihm item e (by simp) item (joinPath path item)
      refine ⟨(item, node) :: others, ?_⟩
      rw [buildChildren, if_neg hk]
      rw [hn, ho]
      rfl

theorem build_ok (sha : List Nat → String) (hsha : shaOk sha) :
    ∀ e name path, ∃ n, build_recursive sha name path e = .ok n := by
  intro e
  induction e using fsInductionOn with
  | hf content =>
    intro name path
    refine ⟨.mk name path (sha content) true [], ?_⟩
    simp only [build_recursive, create_file_node, nodeInit]
    rw [validate_hash_ok_of_wfHash (wfHash_of_hexLower64 (hsha content))]
    rfl
  | hd entries ihm =>
    intro name path
    obtain ⟨ch, hb⟩ := buildChildren_ok sha hsha path (sortEntriesByName entries)
      (fun k e2 hm => ihm k e2 ((sortEntriesByName_perm entries).mem_iff.mp hm))
    refine ⟨.mk name path (sha (utf8Encode (String.intercalate "|"
      (pySortStrings (ch.map (fun kc => kc.2.hash)))))) false ch, ?_⟩
    rw [build_recursive]
    rw [hb]
    simp only [bind, Except.bind, create_directory_node, nodeInit]
    rw [validate_hash_ok_of_wfHash (wfHash_of_hexLower64 (hsha _))]
    rfl

theorem build_name (sha : List Nat → String) (e : FSEntry) (name path : String)
    (n : MNode) (h : build_recursive sha name path e = .ok n) : n.name = name := by
  cases e with
  | file content =>
    simp only [build_recursive, create_file_node, nodeInit] at h
    cases hv : validate_hash (sha content) with
    | error e2 =>
      rw [hv] at h
      cases h
    | ok r =>
      rw [hv] at h
      simp only [Except.map] at h
      cases h
      rfl
  | dir entries =>
    rw [build_recursive] at h
    cases hb : buildChildren sha path (sortEntriesByName entries) with
    | error e2 =>
      rw [hb] at h
      simp only [bind, Except.bind] at h
      cases h
    | ok ch =>
      rw [hb] at h
      simp only [bind, Except.bind, create_directory_node, nodeInit] at h
      cases hv : validate_hash (sha (utf8Encode (String.intercalate "|"
          (pySortStrings (ch.map (fun kc => kc.2.hash)))))) with
      | error e2 =>
        rw [hv] at h
        cases h
      | ok r =>
        rw [hv] at h
        simp only [Except.map] at h
        cases h
        rfl

theorem buildChildren_noIgnored (sha : List Nat → String) (path : String)
    (l : List (String × FSEntry))
    (ihm : ∀ k e, (k, e) ∈ l → ∀ name p2 n,
      build_recursive sha name p2 e = .ok n → noIgnoredNames n = true)
    {ch : List (String × MNode)} (hb : buildChildren sha path l = .ok ch) :
    noIgnoredL ch = true := by
  induction l generalizing ch with
  | nil =>
    rw [buildChildren] at hb
    cases hb
    rfl
  | cons ke rest ih =>
    obtain ⟨item, e⟩ := ke
    rw [buildChildren] at hb
    by_cases hk : ignored_patterns.contains item = true
    · rw [if_pos hk] at hb
      exact ih (fun k2 e2 hm => ihm k2 e2 (by simp [hm])) hb
    · rw [if_neg hk] at hb
      cases hn : build_recursive sha item (joinPath path item) e with
      | error err =>
        rw [hn] at hb
        cases hb
      | ok node =>
        rw [hn] at hb
        cases ho : buildChildren sha path rest with
        | error err =>
          rw [ho] at hb
          cases hb
        | ok others =>
          rw [ho] at hb
          simp only [Except.bind, bind, pure, Except.pure] at hb
          cases hb
          have h1 := ihm item e (by simp) item (joinPath path item) node hn
          have h2 := build_name sha e item (joinPath path item) node hn
          have h3 := ih (fun k2 e2 hm => ihm k2 e2 (by simp [hm])) ho
          simp only [noIgnoredL, Bool.and_eq_true]
          refine ⟨⟨⟨?_, ?_⟩, h1⟩, h3⟩
          · simpa [List.elem_eq_mem] using hk
          · rw [h2]
            simpa [List.elem_eq_mem] using hk

theorem build_noIgnored (sha : List Nat → String) :
    ∀ e name path n, build_recursive sha name path e = .ok n →
      noIgnoredNames n = true := by
  intro e
  induction e using fsInductionOn with
  | hf content =>
    intro name path n h
    simp only [build_recursive, create_file_node, nodeInit] at h
    cases hv : validate_hash (sha content) with
    | error e2 =>
      rw [hv] at h
      cases h
    | ok r =>
      rw [hv] at h
      simp only [Except.map] at h
      cases h
      rfl
  | hd entries ihm =>
    intro name path n h
    rw [build_recursive] at h
    cases hb : buildChildren sha path (sortEntriesByName entries) with
    | error e2 =>
      rw [hb] at h
      simp only [bind, Except.bind] at h
      cases h
    | ok ch =>
      rw [hb] at h
      simp only [bind, Except.bind, create_directory_node, nodeInit] at h
      cases hv : validate_hash (sha (utf8Encode (String.intercalate "|"
          (pySortStrings (ch.map (fun kc => kc.2.hash)))))) with
      | error e2 =>
        rw [hv] at h
        cases h
      | ok r =>
        rw [hv] at h
        simp only [Except.map] at h
        cases h
        simp only [noIgnoredNames]
        exact buildChildren_noIgnored sha path _
          (fun k e2 hm => ihm k e2 ((sortEntriesByName_perm entries).mem_iff.mp hm))
          hb

theorem buildChildren_dirHashOk (sha : List Nat → String) (path : String)
    (l : List (String × FSEntry))
    (ihm : ∀ k e, (k, e) ∈ l → ∀ name p2 n,
      build_recursive sha name p2 e = .ok n → dirHashOk sha n = true)
    {ch : List (String × MNode)} (hb : buildChildren sha path l = .ok ch) :
    dirHashOkL sha ch = true := by
  induction l generalizing ch with
  | nil =>
    rw [buildChildren] at hb
    cases hb
    rfl
  | cons ke rest ih =>
    obtain ⟨item, e⟩ := ke
    rw [buildChildren] at hb
    by_cases hk : ignored_patterns.contains item = true
    · rw [if_pos hk] at hb
      exact ih (fun k2 e2 hm => ihm k2 e2 (by simp [hm])) hb
    · rw [if_neg hk] at hb
      cases hn : build_recursive sha item (joinPath path item) e with
      | error err =>
        rw [hn] at hb
        cases hb
      | ok node =>
        rw [hn] at hb
        cases ho : buildChildren sha path rest with
        | error err =>
          rw [ho] at hb
          cases hb
        | ok others =>
          rw [ho] at hb
          simp only [Except.bind, bind, pure, Except.pure] at hb
          cases hb
          have h1 := ihm item e (by simp) item (joinPath path item) node hn
          have h3 := ih (fun k2 e2 hm => ihm k2 e2 (by simp [hm])) ho
          simp [dirHashOkL, h1, h3]

theorem build_dirHashOk (sha : List Nat → String) (hsha : shaOk sha) :
    ∀ e name path n, build_recursive sha name path e = .ok n →
      dirHashOk sha n = true := by
  intro e
  induction e using fsInductionOn with
  | hf content =>
    intro name path n h
    simp only [build_recursive, create_file_node, nodeInit] at h
    cases hv : validate_hash (sha content) with
    | error e2 =>
      rw [hv] at h
      cases h
    | ok r =>
      rw [hv] at h
      simp only [Except.map] at h
      cases h
      rfl
  | hd entries ihm =>
    intro name path n h
    rw [build_recursive] at h
    cases hb : buildChildren sha path (sortEntriesByName entries) with
    | error e2 =>
      rw [hb] at h
      simp only [bind, Except.bind] at h
      cases h
    | ok ch =>
      rw [hb] at h
      simp only [bind, Except.bind, create_directory_node, nodeInit] at h
      cases hv : validate_hash (sha (utf8Encode (String.intercalate "|"
          (pySortStrings (ch.map (fun kc => kc.2.hash)))))) with
      | error e2 =>
        rw [hv] at h
        cases h
      | ok r =>
        rw [hv] at h
        simp only [Except.map] at h
        cases h
        have hl := buildChildren_dirHashOk sha path _
          (fun k e2 hm => ihm k e2 ((sortEntriesByName_perm entries).mem_iff.mp hm))
          hb
        have hr := ((validate_hash_ok_iff _ r).mp hv).2.2
        have hfix := hexLower64_chars (hsha (utf8Encode (String.intercalate "|"
          (pySortStrings (ch.map (fun kc => kc.2.hash))))))
        simp only [dirHashOk, Bool.and_eq_true, beq_iff_eq, Bool.false_eq_true,
          if_false, if_neg, not_false_iff]
        constructor
        · rw [hr, hfix]
        · simpa using hl

/-! ## Ignore-stripping lemmas -/

theorem survivors_cons_pos {α : Type} (k : String) (e : α)
    (rest : List (String × α)) (hk : ignored_patterns.contains k = true) :
    survivors ((k, e) :: rest) = survivors rest := by
  have hm : k ∈ ignored_patterns := by simpa [List.elem_eq_mem] using hk
  simp [survivors, List.filter_cons, hm]

theorem survivors_cons_neg {α : Type} (k : String) (e : α)
    (rest : List (String × α)) (hk : ignored_patterns.contains k = false) :
    survivors ((k, e) :: rest) = (k, e) :: survivors rest := by
  have hm : k ∉ ignored_patterns := by simpa [List.elem_eq_mem] using hk
  simp [survivors, List.filter_cons, hm]

theorem stripChildren_survivors (l : List (String × FSEntry)) :
    survivors (stripChildren l) = stripChildren l := by
  induction l with
  | nil => rfl
  | cons ke rest ih =>
    obtain ⟨k, e⟩ := ke
    cases hk : ignored_patterns.contains k with
    | true =>
      rw [stripChildren, if_pos hk]
      exact ih
    | false =>
      rw [stripChildren, if_neg (by rw [hk]; exact Bool.false_ne_true)]
      rw [survivors_cons_neg k (stripIgnored e) (stripChildren rest) hk, ih]

theorem stripChildren_hashes (sha : List Nat → String) (l : List (String × FSEntry))
    (ihm : ∀ k e, (k, e) ∈ l → hashOfFS sha (stripIgnored e) = hashOfFS sha e) :
    (stripChildren l).map (fun ke => hashOfFS sha ke.2)
      = (survivors l).map (fun ke => hashOfFS sha ke.2) := by
  induction l with
  | nil => rfl
  | cons ke rest ih =>
    obtain ⟨k, e⟩ := ke
    cases hk : ignored_patterns.contains k with
    | true =>
      rw [stripChildren, if_pos hk, survivors_cons_pos k e rest hk]
      exact ih (fun k2 e2 hmm => ihm k2 e2 (by simp [hmm]))
    | false =>
      rw [stripChildren, if_neg (by rw [hk]; exact Bool.false_ne_true),
        survivors_cons_neg k e rest hk]
      simp only [List.map]
      rw [ihm k e (by simp), ih (fun k2 e2 hmm => ihm k2 e2 (by simp [hmm]))]

theorem hashOfFS_strip (sha : List Nat → String) :
    ∀ e, hashOfFS sha (stripIgnored e) = hashOfFS sha e := by
  intro e
  induction e using fsInductionOn with
  | hf content => rfl
  | hd entries ihm =>
    simp only [stripIgnored, hashOfFS]
    have hs : pySortStrings (hashChildrenFS sha (stripChildren entries))
        = pySortStrings (hashChildrenFS sha entries) := by
      apply pySortStrings_perm_eq
      rw [hashChildrenFS_eq, hashChildrenFS_eq, stripChildren_survivors]
      rw [stripChildren_hashes sha entries ihm]
    rw [hs]

/-! ## Claim C2: directory hash composition -/

/-- C2: every directory node a successful build produces (at any depth)
carries as its hash the digest of the UTF-8 bytes of its surviving
children's hash strings, sorted lexicographically as strings and joined
with the `|` separator; in particular a directory with no surviving
children hashes the empty string. (`shaOk` is the `hexdigest` guarantee;
it lets the lowercase-normalized stored hash be written as the raw digest.) -/
theorem C2_directory_hash (sha : List Nat → String) (hsha : shaOk sha) :
    (∀ e name path n, build_recursive sha name path e = .ok n →
        dirHashOk sha n = true)
      ∧ (∀ name path n, build_recursive sha name path (.dir []) = .ok n →
        n.hash = sha (utf8Encode "")) := by
  refine ⟨build_dirHashOk sha hsha, ?_⟩
  intro name path n h
  rw [build_hash sha (.dir []) name path n h]
  show asciiLower (sha (utf8Encode (String.intercalate "|"
    (pySortStrings (hashChildrenFS sha []))))) = sha (utf8Encode "")
  exact hexLower64_chars (hsha (utf8Encode ""))

/-! ## Claim C6: reflexivity of the diff -/

/-- C6: `find_differences t t` is empty for every tree; the node compare
returns immediately (with no output) whenever the two hashes are equal;
and two trees built independently over the same directory contents — even
at different root paths — have equal root hashes and an empty diff. -/
theorem C6_reflexivity :
    (∀ t, find_differences t t = [])
      ∧ (∀ n1 n2 : MNode, n1.hash = n2.hash → compareNodes n1 n2 = [])
      ∧ (∀ (sha : List Nat → String) e p1 p2 t1 t2,
          build_from_directory sha (some e) p1 = .ok t1 →
          build_from_directory sha (some e) p2 = .ok t2 →
          get_root_hash t1 = get_root_hash t2 ∧ find_differences t1 t2 = []) := by
  refine ⟨?_, fun n1 n2 h => compareNodes_hash_eq h, ?_⟩
  · intro t
    obtain ⟨root, rp⟩ := t
    cases root with
    | none => rfl
    | some r => exact compareNodes_hash_eq rfl
  · intro sha e p1 p2 t1 t2 h1 h2
    simp only [build_from_directory] at h1 h2
    cases hb1 : build_recursive sha (basename p1) p1 e with
    | error e2 =>
      rw [hb1] at h1
      cases h1
    | ok r1 =>
      rw [hb1] at h1
      simp only [Except.map] at h1
      cases h1
      cases hb2 : build_recursive sha (basename p2) p2 e with
      | error e2 =>
        rw [hb2] at h2
        cases h2
      | ok r2 =>
        rw [hb2] at h2
        simp only [Except.map] at h2
        cases h2
        have hh : r1.hash = r2.hash :=
          (build_hash sha e _ p1 r1 hb1).trans (build_hash sha e _ p2 r2 hb2).symm
        exact ⟨by simp [get_root_hash, hh], compareNodes_hash_eq hh⟩

/-! ## Claim C8: the ignore set -/

/-- C8: no child key and no node name anywhere inside a built tree belongs
to the ignore set (in particular no node is named `.git`), and two
directory contents that agree after recursively deleting ignored entries —
for example two directories identical except for what is inside `.git` —
build to the same root hash. -/
theorem C8_ignore_set :
    (∀ (sha : List Nat → String) e name path n,
        build_recursive sha name path e = .ok n → noIgnoredNames n = true)
      ∧ (∀ (sha : List Nat → String) e1 e2 p1 p2 t1 t2,
          stripIgnored e1 = stripIgnored e2 →
          build_from_directory sha (some e1) p1 = .ok t1 →
          build_from_directory sha (some e2) p2 = .ok t2 →
          get_root_hash t1 = get_root_hash t2) := by
  refine ⟨fun sha => build_noIgnored sha, ?_⟩
  intro sha e1 e2 p1 p2 t1 t2 hstrip h1 h2
  simp only [build_from_directory] at h1 h2
  cases hb1 : build_recursive sha (basename p1) p1 e1 with
  | error e0 =>
    rw [hb1] at h1
    cases h1
  | ok r1 =>
    rw [hb1] at h1
    simp only [Except.map] at h1
    cases h1
    cases hb2 : build_recursive sha (basename p2) p2 e2 with
    | error e0 =>
      rw [hb2] at h2
      cases h2
    | ok r2 =>
      rw [hb2] at h2
      simp only [Except.map] at h2
      cases h2
      have hh : hashOfFS sha e1 = hashOfFS sha e2 :=
        (hashOfFS_strip sha e1).symm.trans
          ((congrArg (hashOfFS sha) hstrip).trans (hashOfFS_strip sha e2))
      have : r1.hash = r2.hash :=
        (build_hash sha e1 _ p1 r1 hb1).trans
          (hh.trans (build_hash sha e2 _ p2 r2 hb2).symm)
      simp [get_root_hash, this]

/-! ## Claim C4: build success and PathNotFound -/

/-- C4 on the modelled build (see the development header and the results
notes: at runtime this code path raises `AttributeError`, because
`tree.py` invokes `MerkleNode.create_file` / `MerkleNode.create_directory`
while `node.py` defines `create_file_node` / `create_directory_node`; the
embedding binds the calls to the defined constructors, under which the
claim holds): the build fails with the `PathNotFound` failure exactly when
the root path does not exist, and on every existing entry it succeeds with
a tree that has a root node and the given root path. -/
theorem C4_build_totality (sha : List Nat → String) (hsha : shaOk sha) :
    (∀ root_path, build_from_directory sha none root_path = .error .fileNotFound)
      ∧ (∀ fs root_path,
          build_from_directory sha fs root_path = .error .fileNotFound → fs = none)
      ∧ (∀ e root_path, ∃ t, build_from_directory sha (some e) root_path = .ok t
          ∧ t.root.isSome = true ∧ t.root_path = some root_path) := by
  refine ⟨fun rp => rfl, ?_, ?_⟩
  · intro fs rp h
    cases fs with
    | none => rfl
    | some e =>
      obtain ⟨n, hn⟩ := build_ok sha hsha e (basename rp) rp
      simp [build_from_directory, hn, Except.map] at h
  · intro e rp
    obtain ⟨n, hn⟩ := build_ok sha hsha e (basename rp) rp
    exact ⟨⟨some n, some rp⟩, by simp [build_from_directory, hn, Except.map], rfl, rfl⟩

/-! ## Concrete instantiations for the witnesses -/

/-- A constant hash oracle whose output is a fixed valid digest; enough to
exercise the build pipeline concretely. -/
def constSha : List Nat → String := fun _ => demoHashA

theorem constSha_ok : shaOk constSha := fun b => by
  show hexLower64 demoHashA = true
  decide

theorem demoBuildEmpty (name path : String) :
    build_recursive constSha name path (.dir [])
      = .ok (.mk name path demoHashA false []) := by
  rw [build_recursive]
  have h0 : buildChildren constSha path (sortEntriesByName ([] : List (String × FSEntry)))
      = .ok [] := by
    rw [show sortEntriesByName ([] : List (String × FSEntry)) = [] from rfl, buildChildren]
    rfl
  rw [h0]
  simp only [bind, Except.bind, create_directory_node, nodeInit]
  rw [validate_hash_ok_of_wfHash (show wfHash (constSha (utf8Encode
    (String.intercalate "|" (pySortStrings (List.map (fun kc => kc.2.hash)
      ([] : List (String × MNode))))))) = true by decide)]
  rfl

theorem demoBuildGit (name path : String) (x : FSEntry) :
    build_recursive constSha name path (.dir [(".git", x)])
      = .ok (.mk name path demoHashA false []) := by
  rw [build_recursive]
  have h0 : buildChildren constSha path (sortEntriesByName [((".git" : String), x)])
      = .ok [] := by
    rw [show sortEntriesByName [((".git" : String), x)] = [((".git" : String), x)] from rfl,
      buildChildren]
    rw [if_pos (by decide)]
    rw [buildChildren]
    rfl
  rw [h0]
  simp only [bind, Except.bind, create_directory_node, nodeInit]
  rw [validate_hash_ok_of_wfHash (show wfHash (constSha (utf8Encode
    (String.intercalate "|" (pySortStrings (List.map (fun kc => kc.2.hash)
      ([] : List (String × MNode))))))) = true by decide)]
  rfl

theorem demoBuildFromEmpty (path : String) :
    build_from_directory constSha (some (.dir [])) path
      = .ok ⟨some (.mk (basename path) path demoHashA false []), some path⟩ := by
  simp [build_from_directory, demoBuildEmpty, Except.map]

theorem demoBuildFromGit (path : String) (x : FSEntry) :
    build_from_directory constSha (some (.dir [(".git", x)])) path
      = .ok ⟨some (.mk (basename path) path demoHashA false []), some path⟩ := by
  simp [build_from_directory, demoBuildGit, Except.map]

theorem C2_witness :
    dirHashOk constSha (.mk "r" "/r" demoHashA false []) = true
      ∧ MNode.hash (.mk "r" "/r" demoHashA false []) = constSha (utf8Encode "") :=
  ⟨(C2_directory_hash constSha constSha_ok).1 (.dir []) "r" "/r" _ (demoBuildEmpty "r" "/r"),
   (C2_directory_hash constSha constSha_ok).2 "r" "/r" _ (demoBuildEmpty "r" "/r")⟩

theorem C4_witness :
    build_from_directory constSha none "/missing" = .error .fileNotFound
      ∧ ∃ t, build_from_directory constSha (some (.file [104, 105])) "/r" = .ok t
          ∧ t.root.isSome = true ∧ t.root_path = some "/r" :=
  ⟨(C4_build_totality constSha constSha_ok).1 "/missing",
   (C4_build_totality constSha constSha_ok).2.2 (.file [104, 105]) "/r"⟩

theorem C6_witness :
    get_root_hash ⟨some (.mk (basename "/r") "/r" demoHashA false []), some "/r"⟩
        = get_root_hash ⟨some (.mk (basename "/s") "/s" demoHashA false []), some "/s"⟩
      ∧ find_differences
          ⟨some (.mk (basename "/r") "/r" demoHashA false []), some "/r"⟩
          ⟨some (.mk (basename "/s") "/s" demoHashA false []), some "/s"⟩ = [] :=
  (C6_reflexivity).2.2 constSha (.dir []) "/r" "/s" _ _
    (demoBuildFromEmpty "/r") (demoBuildFromEmpty "/s")

theorem C8_witness :
    noIgnoredNames (.mk "r" "/r" demoHashA false []) = true
      ∧ get_root_hash ⟨some (.mk (basename "/r") "/r" demoHashA false []), some "/r"⟩
          = get_root_hash ⟨some (.mk (basename "/s") "/s" demoHashA false []), some "/s"⟩ :=
  ⟨(C8_ignore_set).1 constSha (.dir [(".git", .file [1])]) "r" "/r" _
      (demoBuildGit "r" "/r" (.file [1])),
   (C8_ignore_set).2 constSha
      (.dir [(".git", .dir [("config", .file [0])])])
      (.dir [(".git", .file [1])]) "/r" "/s" _ _ rfl
      (demoBuildFromGit "/r" (.dir [("config", .file [0])]))
      (demoBuildFromGit "/s" (.file [1]))⟩

/-! ## Sortedness of the modelled `sorted` / `list.sort`

Together with `insSort_perm` these justify reading `pySortStrings` as
Python's sort: it returns the code-point-lexicographically ordered
permutation of its input. -/

theorem insSorted_sorted (x : String) (l : List String)
    (h : l.Pairwise (fun a b => strLeB a b = true)) :
    (insSorted strLeB x l).Pairwise (fun a b => strLeB a b = true) := by
  induction l with
  | nil => simp [insSorted]
  | cons y ys ih =>
    rw [List.pairwise_cons] at h
    obtain ⟨hy, hys⟩ := h
    simp only [insSorted]
    by_cases hxy : strLeB x y = true
    · rw [if_pos hxy]
      refine List.Pairwise.cons ?_ (List.Pairwise.cons hy hys)
      intro z hz
      rcases List.mem_cons.mp hz with hz2 | hz2
      · rw [hz2]
        exact hxy
      · exact strLeB_trans hxy (hy z hz2)
    · rw [if_neg hxy]
      have hyx := strLeB_total_of_not hxy
      refine List.Pairwise.cons ?_ (ih hys)
      intro z hz
      rcases List.mem_cons.mp ((insSorted_perm strLeB x ys).mem_iff.mp hz) with hz2 | hz2
      · rw [hz2]
        exact hyx
      · exact hy z hz2

theorem pySortStrings_sorted (l : List String) :
    (pySortStrings l).Pairwise (fun a b => strLeB a b = true) := by
  induction l with
  | nil => exact List.Pairwise.nil
  | cons x xs ih => exact insSorted_sorted x (insSort strLeB xs) ih

theorem pySortStrings_perm (l : List String) : (pySortStrings l).Perm l :=
  insSort_perm strLeB l
